import Mathlib

/-!
# Formal model of `src/utilities.ts` (vscode-elixir-credo)

A shallow embedding of the configuration-file resolution and command-line
assembly logic of `src/utilities.ts`, together with theorems about it.

Modelling choices:

* Directories are normalized absolute POSIX paths, represented by the list of
  path components below the filesystem root: `[]` is `/`, `["proj", "config"]`
  is `/proj/config`.  `path.dirname` on such a directory is `List.dropLast`
  (the root is its own parent, exactly as in Node), and `path.join dir name`
  is rendered at string level by `joinRel`.
* The filesystem is the list of (string) paths of the files that exist;
  `fs.existsSync` is list membership.
* `findUp` in the source recurses with no structural termination: whenever
  `stopAt` is never reached and the file is never found, the recursion hits
  the root `/` and then calls itself forever on `/`.  The embedding therefore
  passes explicit fuel `startAt.length + 1` — the number of distinct
  directories the source can visit before it revisits `/`.  The outer
  `Option` layer of the result is `none` exactly when the source recursion
  diverges, and `some r` when the source call returns `r` (`r = none` being
  the source's `undefined`).
* JavaScript string truthiness: `undefined` and `""` are both falsy, so both
  are modelled by the empty string `""`.  A JS template literal renders an
  `undefined` field as the text `"undefined"`; `templateStr` reproduces this.
* `vscode.workspace.getWorkspaceFolder(documentUri)` is modelled by the
  ambient field `Env.workspaceFolder`: the workspace folder owning the
  document, if any.  A `vscode.Uri` is modelled by its `fsPath`, split as the
  components of its containing directory plus the file's base name, so that
  `path.dirname(uri.fsPath)` is the `dir` field.
* The logger (`log`) and the `silent` option only affect log output, never
  the returned values, and are not modelled.
-/

/-- The modelled filesystem: the absolute POSIX path strings of the files that
exist.  `fs.existsSync p` is membership of `p`. -/
abbrev FS := List String

/-- Render a directory, given by its components below the root, as a POSIX
path string: `[] ↦ "/"`, `["proj", "config"] ↦ "/proj/config"`. -/
def pathString (p : List String) : String :=
  "/" ++ String.intercalate "/" p

/-- `path.join dir name` for a normalized absolute directory string `dir` and
a relative `name`: Node yields `path.join("/a", "x") = "/a/x"` and
`path.join("/", "x") = "/x"`. -/
def joinRel (dir name : String) : String :=
  if dir = "/" then dir ++ name else dir ++ "/" ++ name

/-- `path.isAbsolute` on POSIX: the path starts with `'/'`. -/
def isAbsolute (s : String) : Bool :=
  s.data.head? == some '/'

/-- `fs.existsSync`. -/
def existsSync (fs : FS) (p : String) : Bool :=
  fs.contains p

/-- `DefaultConfigFile` from `utilities.ts`. -/
def DefaultConfigFile : String := ".credo.exs"

/-- `DefaultCommand` from `utilities.ts`. -/
def DefaultCommand : String := "credo"

/-- `DiffCommand` from `utilities.ts`. -/
def DiffCommand : String := "diff"

/-- `DefaultCommandArguments` from `utilities.ts`. -/
def DefaultCommandArguments : List String :=
  ["--format", "json", "--read-from-stdin"]

/-- The body of `findUp`, with explicit fuel (see the module comment): one
unit of fuel is spent per source-level call.

```
const filePath = path.join(dir, name)
if (fs.existsSync(filePath)) return dir
if (dir === stopAt) return undefined
return findUp(name, { startAt: path.dirname(dir), stopAt })
```
-/
def findUpAux (fs : FS) (name : String) (stopAt : Option (List String)) :
    Nat → List String → Option (Option (List String))
  | 0, _ => none
  | fuel + 1, dir =>
    if existsSync fs (joinRel (pathString dir) name) then some (some dir)
    else if stopAt = some dir then some none
    else findUpAux fs name stopAt fuel dir.dropLast

/-- `findUp name { startAt, stopAt }` from `utilities.ts`.  The result is
`none` when the source recursion diverges (possible only when `stopAt` is
not an ancestor of `startAt`), otherwise `some` of the source's result.
Fuel `startAt.length + 1` suffices to detect divergence: the chain
`startAt, dirname startAt, …` reaches `[]` after `startAt.length` steps and
`dirname` then repeats `[]` forever. -/
def findUp (fs : FS) (name : String) (startAt : List String)
    (stopAt : Option (List String)) : Option (Option (List String)) :=
  findUpAux fs name stopAt (startAt.length + 1) startAt

/-- A `vscode.Uri`, modelled by its `fsPath`: the components of the containing
directory plus the file's base name. -/
structure Uri where
  dir : List String
  base : String

/-- The ambient editor state a call runs in: the filesystem and the workspace
folder owning the document (`vscode.workspace.getWorkspaceFolder`). -/
structure Env where
  fs : FS
  workspaceFolder : Option (List String)

/-- `getProjectFolder(documentUri)` from `utilities.ts`:

```
const mixProjectPath = workspace
  ? findUp('.credo.exs', { startAt: path.dirname(documentUri.fsPath),
                           stopAt: workspace.uri.fsPath })
  : undefined
return mixProjectPath || workspace?.uri.fsPath || path.dirname(documentPath)
```

The result is `none` when the inner `findUp` diverges.  The returned strings
are non-empty (they render absolute paths), so the `||` fallbacks fire
exactly on `undefined`. -/
def getProjectFolder (env : Env) (uri : Uri) : Option String :=
  match env.workspaceFolder with
  | none => some (pathString uri.dir)
  | some w =>
    match findUp env.fs DefaultConfigFile uri.dir (some w) with
    | none => none
    | some (some d) => some (pathString d)
    | some none => some (pathString w)

/-- The extension configuration, shaped after the fields `utilities.ts` reads
from `getCurrentConfiguration()`.  String fields use `""` for both `""` and
`undefined` (JS falsy). -/
structure CredoConfig where
  configurationFile : String
  credoConfiguration : String
  checksWithTag : List String
  checksWithoutTag : List String
  strictMode : Bool
  diffModeEnabled : Bool
  diffModeMergeBase : String

/-- `extensionConfig.configurationFile || DefaultConfigFile`. -/
def effectiveConfigFile (c : CredoConfig) : String :=
  if c.configurationFile = "" then DefaultConfigFile else c.configurationFile

/-- Remove the first occurrence of `pat` from a character list, scanning left
to right; the list is unchanged when `pat` does not occur. -/
def removeFirst (pat : List Char) : List Char → List Char
  | [] => []
  | c :: rest =>
    if pat.isPrefixOf (c :: rest) then (c :: rest).drop pat.length
    else c :: removeFirst pat rest

/-- JavaScript `s.replace(pat, '')` with a string pattern: only the first
occurrence of `pat` is removed. -/
def replaceFirst (s pat : String) : String :=
  String.mk (removeFirst pat.data s.data)

/-- `getCredoConfigFilePath(documentUri?)` from `utilities.ts`.  The outer
`Option` is `none` when the underlying `findUp` diverges; the inner value is
the source's `string | null`.  The `silent` option only suppresses log
output and is not modelled.

```
const configurationFile = extensionConfig.configurationFile || DefaultConfigFile
if (path.isAbsolute(configurationFile) && fs.existsSync(configurationFile))
  return configurationFile
let projectFolder = documentUri ? getProjectFolder(documentUri) : undefined
if (!projectFolder && documentUri)
  projectFolder = vscode.workspace.getWorkspaceFolder(documentUri)?.uri.fsPath
const found = projectFolder
  ? [path.join(projectFolder, configurationFile),
     path.join(projectFolder, 'config', configurationFile)]
      .filter((fullPath) => fs.existsSync(fullPath))
  : []
if (found.length === 0) return null
return found[0].replace(`${projectFolder}${path.sep}`, '')
```

`getProjectFolder` always returns a non-empty string when it returns, so the
re-assignment guarded by `!projectFolder && documentUri` never fires and is
not modelled. -/
def getCredoConfigFilePath (env : Env) (c : CredoConfig) (documentUri : Option Uri) :
    Option (Option String) :=
  let configurationFile := effectiveConfigFile c
  if isAbsolute configurationFile && existsSync env.fs configurationFile then
    some (some configurationFile)
  else
    match documentUri with
    | none => some none
    | some uri =>
      match getProjectFolder env uri with
      | none => none
      | some projectFolder =>
        let found :=
          [joinRel projectFolder configurationFile,
           joinRel (joinRel projectFolder "config") configurationFile].filter
            (fun fullPath => existsSync env.fs fullPath)
        match found with
        | [] => some none
        | first :: _ => some (some (replaceFirst first (projectFolder ++ "/")))

/-- `if (configFilePath) commandArguments.push('--config-file', configFilePath)`
(`null` and `""` are both JS-falsy). -/
def configFileArgs : Option String → List String
  | none => []
  | some p => if p = "" then [] else ["--config-file", p]

/-- `if (extensionConfig.credoConfiguration) push('--config-name', …)`. -/
def configNameArgs (c : CredoConfig) : List String :=
  if c.credoConfiguration = "" then []
  else ["--config-name", c.credoConfiguration]

/-- The tag-filter flags: the include branch short-circuits the exclude
branch.

```
if (extensionConfig.checksWithTag.length) { …push('--checks-with-tag', tag)… }
else if (extensionConfig.checksWithoutTag.length) { …push('--checks-without-tag', tag)… }
```
-/
def tagArgs (c : CredoConfig) : List String :=
  if c.checksWithTag.length ≠ 0 then
    c.checksWithTag.flatMap (fun tag => ["--checks-with-tag", tag])
  else if c.checksWithoutTag.length ≠ 0 then
    c.checksWithoutTag.flatMap (fun tag => ["--checks-without-tag", tag])
  else []

/-- `if (extensionConfig.strictMode) push('--strict')`. -/
def strictArgs (c : CredoConfig) : List String :=
  if c.strictMode then ["--strict"] else []

/-- `extensionConfig.diffMode.mergeBase || 'main'`. -/
def effectiveMergeBase (c : CredoConfig) : String :=
  if c.diffModeMergeBase = "" then "main" else c.diffModeMergeBase

/-- `if (extensionConfig.diffMode.enabled) push('--from-git-merge-base', …)`. -/
def diffArgs (c : CredoConfig) : List String :=
  if c.diffModeEnabled then ["--from-git-merge-base", effectiveMergeBase c]
  else []

/-- `const commandPrefix = extensionConfig.diffMode.enabled
      ? [DefaultCommand, DiffCommand] : [DefaultCommand]`. -/
def commandFront (c : CredoConfig) : List String :=
  if c.diffModeEnabled then [DefaultCommand, DiffCommand] else [DefaultCommand]

/-- `getCommandArguments(documentUri?)` from `utilities.ts`: the sequence of
`push` calls on `commandArguments` is written as list appends, in source
order, and the prefix is prepended last.  `none` when the inner
`getCredoConfigFilePath` diverges. -/
def getCommandArguments (env : Env) (c : CredoConfig) (documentUri : Option Uri) :
    Option (List String) :=
  match getCredoConfigFilePath env c documentUri with
  | none => none
  | some configFilePath =>
    some (commandFront c ++
      (DefaultCommandArguments ++ configFileArgs configFilePath ++
        configNameArgs c ++ tagArgs c ++ strictArgs c ++ diffArgs c))

/-- A JS template literal renders an `undefined` interpolation as the text
`"undefined"`. -/
def templateStr : Option String → String
  | some v => v
  | none => "undefined"

/-- `getCommandEnvironment()` from `utilities.ts`.  The ambient process
environment is a partial map from variable names to values; `delimiter` is
`path.delimiter`; `executePath` is the `elixir.credo.executePath` setting
(`""` when unset, JS falsy).

```
if (executePath) {
  return { ...process.env,
           PATH: `${process.env.PATH}${path.delimiter}${executePath}` }
}
return { ...process.env }
```
-/
def getCommandEnvironment (processEnv : String → Option String)
    (delimiter executePath : String) : String → Option String :=
  if executePath = "" then processEnv
  else fun name =>
    if name = "PATH" then
      some (templateStr (processEnv "PATH") ++ delimiter ++ executePath)
    else processEnv name

/-! ## Helper lemmas about `findUpAux` -/

/-- More fuel never changes a result that was already reached. -/
lemma findUpAux_mono {fs : FS} {name : String} {stopAt : Option (List String)} :
    ∀ (fuel : Nat) (dir : List String) (r : Option (List String)) (fuel' : Nat),
      findUpAux fs name stopAt fuel dir = some r → fuel ≤ fuel' →
      findUpAux fs name stopAt fuel' dir = some r := by
  intro fuel
  induction fuel with
  | zero => intro dir r fuel' h _; simp [findUpAux] at h
  | succ n ih =>
    intro dir r fuel' h hle
    cases fuel' with
    | zero => omega
    | succ m =>
      rw [findUpAux] at h ⊢
      by_cases h1 : existsSync fs (joinRel (pathString dir) name) = true
      · simpa [h1] using h
      · by_cases h2 : stopAt = some dir
        · simpa [h1, h2] using h
        · simp only [h1, h2, if_false, Bool.false_eq_true, ite_false] at h ⊢
          exact ih _ _ _ h (by omega)

/-- A proper prefix of `dir` is still a prefix of `dir.dropLast`. -/
lemma prefix_dropLast_of_ne {s dir : List String} (h : s <+: dir) (hne : s ≠ dir) :
    s <+: dir.dropLast := by
  have hlt : s.length < dir.length := by
    rcases Nat.lt_or_ge s.length dir.length with h' | h'
    · exact h'
    · exact absurd (h.eq_of_length (Nat.le_antisymm h.length_le h')) hne
  rw [List.dropLast_eq_take, List.prefix_take_iff]
  exact ⟨h, by omega⟩

/-- When the stop directory is an ancestor of (or equal to) the current
directory, `findUpAux` succeeds within `depth + 1` fuel and only ever
returns the current directory or one of its ancestors at or below the stop
boundary. -/
lemma findUpAux_total {fs : FS} {name : String} {s : List String} :
    ∀ (fuel : Nat) (dir : List String), s <+: dir → dir.length - s.length < fuel →
      ∃ r, findUpAux fs name (some s) fuel dir = some r ∧
        ∀ d, r = some d → d <+: dir ∧ s <+: d := by
  intro fuel
  induction fuel with
  | zero => intro dir _ h; omega
  | succ n ih =>
    intro dir hpre hfuel
    rw [findUpAux]
    by_cases h1 : existsSync fs (joinRel (pathString dir) name) = true
    · refine ⟨some dir, by simp [h1], ?_⟩
      intro d hd
      cases hd
      exact ⟨List.prefix_refl dir, hpre⟩
    · by_cases h2 : s = dir
      · exact ⟨none, by simp [h1, h2], fun d hd => nomatch hd⟩
      · have hlt : s.length < dir.length := by
          rcases Nat.lt_or_ge s.length dir.length with h' | h'
          · exact h'
          · exact absurd (hpre.eq_of_length (Nat.le_antisymm hpre.length_le h')) h2
        have hfuel' : dir.dropLast.length - s.length < n := by
          rw [List.length_dropLast]; omega
        obtain ⟨r, hr, hprops⟩ := ih dir.dropLast (prefix_dropLast_of_ne hpre h2) hfuel'
        refine ⟨r, by simp [h1, h2, hr], fun d hd => ?_⟩
        obtain ⟨hd1, hd2⟩ := hprops d hd
        exact ⟨hd1.trans (List.dropLast_prefix dir), hd2⟩

/-- When the stop directory is an ancestor of (or equal to) the current
directory and no directory between them contains the file, `findUpAux`
reaches the stop boundary and returns the source's `undefined`. -/
lemma findUpAux_miss {fs : FS} {name : String} {s : List String} :
    ∀ (fuel : Nat) (dir : List String), s <+: dir → dir.length - s.length < fuel →
      (∀ d, s <+: d → d <+: dir → existsSync fs (joinRel (pathString d) name) = false) →
      findUpAux fs name (some s) fuel dir = some none := by
  intro fuel
  induction fuel with
  | zero => intro dir _ h _; omega
  | succ n ih =>
    intro dir hpre hfuel hmiss
    rw [findUpAux]
    have h1 : existsSync fs (joinRel (pathString dir) name) = false :=
      hmiss dir hpre (List.prefix_refl dir)
    by_cases h2 : s = dir
    · simp [h1, h2]
    · have hlt : s.length < dir.length := by
        rcases Nat.lt_or_ge s.length dir.length with h' | h'
        · exact h'
        · exact absurd (hpre.eq_of_length (Nat.le_antisymm hpre.length_le h')) h2
      have hfuel' : dir.dropLast.length - s.length < n := by
        rw [List.length_dropLast]; omega
      have hrec := ih dir.dropLast (prefix_dropLast_of_ne hpre h2) hfuel'
        (fun d hd1 hd2 => hmiss d hd1 (hd2.trans (List.dropLast_prefix dir)))
      simp [h1, h2, hrec]

/-! ## Claim theorems: `findUp` -/

/-- C1: `findUp` satisfies the reference recursion: if the file exists
directly inside the current directory the search returns that directory;
otherwise, if the current directory equals the stop directory, it returns
absence; otherwise it recurses on the parent directory.  In particular,
searching upward from a directory that directly contains the target file
returns that same directory. -/
theorem findUp_reference_recursion (fs : FS) (name : String)
    (dir : List String) (stopAt : Option (List String)) :
    (findUp fs name dir stopAt =
      if existsSync fs (joinRel (pathString dir) name) then some (some dir)
      else if stopAt = some dir then some none
      else findUp fs name dir.dropLast stopAt) ∧
    (existsSync fs (joinRel (pathString dir) name) = true →
      findUp fs name dir stopAt = some (some dir)) := by
  constructor
  · unfold findUp
    by_cases h1 : existsSync fs (joinRel (pathString dir) name) = true
    · simp [findUpAux, h1]
    · by_cases h2 : stopAt = some dir
      · simp [findUpAux, h1, h2]
      · cases dir with
        | nil => simp [findUpAux, h1, h2]
        | cons a as => simp [findUpAux, h1, h2, List.length_dropLast]
  · intro h1
    unfold findUp
    simp [findUpAux, h1]

/-- Witness for C1 at a concrete input: `/a` directly contains `x`, and the
search starting at `/a` returns `/a`. -/
theorem findUp_reference_recursion_witness :
    findUp ["/a/x"] "x" ["a"] none = some (some ["a"]) :=
  (findUp_reference_recursion ["/a/x"] "x" ["a"] none).2 (by decide)

/-- C2: when the stop directory is an ancestor of (or equal to) the start
directory, `findUp` terminates — fuel `depth + 1`, one unit per visited
directory with `depth` the nesting-depth difference, already suffices — and
any directory it returns is the start directory or an ancestor of it and
never lies strictly above the stop boundary. -/
theorem findUp_bounded (fs : FS) (name : String) (s start : List String)
    (h : s <+: start) :
    ∃ r, findUpAux fs name (some s) (start.length - s.length + 1) start = some r ∧
      findUp fs name start (some s) = some r ∧
      ∀ d, r = some d → d <+: start ∧ s <+: d := by
  obtain ⟨r, hr, hprops⟩ :=
    findUpAux_total (start.length - s.length + 1) start h (by omega)
  exact ⟨r, hr, findUpAux_mono _ _ _ _ hr (by have := h.length_le; omega), hprops⟩

/-- Witness for C2 at a concrete input: searching from `/a/b` with stop `/`. -/
theorem findUp_bounded_witness :
    ∃ r, findUpAux ([] : FS) "x" (some ([] : List String))
        (["a", "b"].length - ([] : List String).length + 1) ["a", "b"] = some r ∧
      findUp [] "x" ["a", "b"] (some []) = some r ∧
      ∀ d, r = some d → d <+: ["a", "b"] ∧ [] <+: d :=
  findUp_bounded [] "x" [] ["a", "b"] ⟨["a", "b"], rfl⟩

/-! ## Helper lemmas about `replaceFirst` and `joinRel` -/

/-- The first occurrence of a non-empty pattern in `pat ++ rest` is the
leading copy of `pat`. -/
lemma removeFirst_append (pat rest : List Char) (h : pat ≠ []) :
    removeFirst pat (pat ++ rest) = rest := by
  cases pat with
  | nil => exact absurd rfl h
  | cons c cs =>
    have hpre : (c :: cs).isPrefixOf (c :: (cs ++ rest)) = true := by
      rw [List.isPrefixOf_iff_prefix]
      exact List.prefix_append _ _
    show removeFirst (c :: cs) (c :: (cs ++ rest)) = rest
    simp only [removeFirst, hpre, if_true]
    exact List.drop_left (c :: cs) rest

lemma data_ne_nil {s : String} (h : s ≠ "") : s.data ≠ [] := by
  intro hd
  apply h
  cases s
  simp at hd
  simp [hd]

/-- JS `replace` with the pattern sitting at the front removes exactly that
front copy. -/
lemma replaceFirst_append (pat rest : String) (h : pat ≠ "") :
    replaceFirst (pat ++ rest) pat = rest := by
  unfold replaceFirst
  rw [String.data_append, removeFirst_append _ _ (data_ne_nil h)]

lemma joinRel_eq (dir name : String) (h : dir ≠ "/") :
    joinRel dir name = (dir ++ "/") ++ name := by
  unfold joinRel
  rw [if_neg h]

lemma append_slash_ne_empty (dir : String) : dir ++ "/" ≠ "" := by
  intro h
  have hlen := congrArg String.length h
  rw [String.length_append] at hlen
  have h1 : ("/" : String).length = 1 := rfl
  have h2 : ("" : String).length = 0 := rfl
  omega

/-- Stripping `dir + sep` from `path.join(dir, name)` yields `name`, for any
directory other than the root. -/
lemma strip_join (dir name : String) (h : dir ≠ "/") :
    replaceFirst (joinRel dir name) (dir ++ "/") = name := by
  rw [joinRel_eq dir name h]
  exact replaceFirst_append _ _ (append_slash_ne_empty dir)

lemma join_config_ne_root (dir : String) (h : dir ≠ "/") :
    joinRel dir "config" ≠ "/" := by
  rw [joinRel_eq dir "config" h]
  intro hc
  have hlen := congrArg String.length hc
  rw [String.length_append, String.length_append] at hlen
  have h1 : ("/" : String).length = 1 := rfl
  have h2 : ("config" : String).length = 6 := rfl
  omega

/-- Stripping `dir + sep` from `path.join(dir, 'config', name)` yields
`config/<name>`, for any directory other than the root. -/
lemma strip_join_config (dir name : String) (h : dir ≠ "/") :
    replaceFirst (joinRel (joinRel dir "config") name) (dir ++ "/") =
      "config/" ++ name := by
  rw [joinRel_eq _ name (join_config_ne_root dir h), joinRel_eq dir "config" h,
    String.append_assoc (dir ++ "/") "config" "/",
    String.append_assoc (dir ++ "/") ("config" ++ "/") name,
    replaceFirst_append _ _ (append_slash_ne_empty dir)]
  rfl

/-! ## Claim theorems: `getCredoConfigFilePath` -/

/-- C3: an absolute, existing, user-configured configuration path is returned
verbatim, for every document argument and irrespective of any
project-relative candidates that may also exist; no upward search takes
place (the result does not depend on the workspace or the document). -/
theorem absolute_override_verbatim (env : Env) (c : CredoConfig)
    (documentUri : Option Uri)
    (h1 : isAbsolute c.configurationFile = true)
    (h2 : existsSync env.fs c.configurationFile = true) :
    getCredoConfigFilePath env c documentUri = some (some c.configurationFile) := by
  have hne : c.configurationFile ≠ "" := by
    intro he
    rw [he] at h1
    exact absurd h1 (by decide)
  have heff : effectiveConfigFile c = c.configurationFile := by
    unfold effectiveConfigFile
    rw [if_neg hne]
  unfold getCredoConfigFilePath
  simp [heff, h1, h2]

/-- Witness for C3: the absolute override wins although a project-relative
candidate also exists. -/
theorem absolute_override_verbatim_witness :
    getCredoConfigFilePath ⟨["/abs/.credo.exs", "/proj/.credo.exs"], some ["proj"]⟩
      ⟨"/abs/.credo.exs", "", [], [], false, false, ""⟩ (some ⟨["proj"], "f.ex"⟩) =
      some (some "/abs/.credo.exs") :=
  absolute_override_verbatim _ _ _ (by decide) (by decide)

/-- C10: with no document URI and no absolute existing override, the resolver
takes the not-found branch and returns the source's `null`. -/
theorem no_document_yields_null (env : Env) (c : CredoConfig)
    (h : (isAbsolute (effectiveConfigFile c) &&
      existsSync env.fs (effectiveConfigFile c)) = false) :
    getCredoConfigFilePath env c none = some none := by
  unfold getCredoConfigFilePath
  simp [h]

/-- Witness for C10: the default configuration file name is relative, so with
no document the resolver returns `null` even though the file exists in the
project. -/
theorem no_document_yields_null_witness :
    getCredoConfigFilePath ⟨["/proj/.credo.exs"], some ["proj"]⟩
      ⟨"", "", [], [], false, false, ""⟩ none = some none :=
  no_document_yields_null _ _ (by decide)

/-- C4 counterexample: with project root `/` (workspace folder `/`, document
directly under `/`, configuration file at `/.credo.exs`), the resolved
candidate is returned as `/.credo.exs`: the root prefix and its separator
are not stripped, and the result is not the relative path `.credo.exs`
required by the claim. -/
theorem candidate_strip_counterexample :
    getCredoConfigFilePath ⟨["/.credo.exs"], some []⟩
      ⟨"", "", [], [], false, false, ""⟩ (some ⟨[], "f.ex"⟩) =
      some (some "/.credo.exs") ∧ ("/.credo.exs" : String) ≠ ".credo.exs" := by
  decide

/-- C4 (amended): whenever the computed project folder is not the filesystem
root and at least one of the candidates `<projectRoot>/<configName>` and
`<projectRoot>/config/<configName>` exists, the resolver returns the first
existing candidate in that fixed priority order with the project-root
prefix and following separator stripped: the result is `<configName>`,
respectively `config/<configName>`. -/
theorem candidate_priority_and_strip (env : Env) (c : CredoConfig) (uri : Uri)
    (pf : String)
    (habs : (isAbsolute (effectiveConfigFile c) &&
      existsSync env.fs (effectiveConfigFile c)) = false)
    (hpf : getProjectFolder env uri = some pf)
    (hroot : pf ≠ "/")
    (hex : existsSync env.fs (joinRel pf (effectiveConfigFile c)) = true ∨
      existsSync env.fs (joinRel (joinRel pf "config") (effectiveConfigFile c)) = true) :
    getCredoConfigFilePath env c (some uri) =
      some (some (if existsSync env.fs (joinRel pf (effectiveConfigFile c)) then
        effectiveConfigFile c else "config/" ++ effectiveConfigFile c)) := by
  unfold getCredoConfigFilePath
  simp only [habs, Bool.false_eq_true, if_false, hpf]
  by_cases e1 : existsSync env.fs (joinRel pf (effectiveConfigFile c)) = true
  · by_cases e2 : existsSync env.fs
        (joinRel (joinRel pf "config") (effectiveConfigFile c)) = true
    · simp [e1, e2, strip_join _ _ hroot]
    · simp [e1, e2, strip_join _ _ hroot]
  · rcases hex with hx | hx
    · exact absurd hx e1
    · simp [e1, hx, strip_join_config _ _ hroot]

/-- Witness for amended C4: the spec's own example — root `/proj`, resolved
file `/proj/config/.credo.exs`, result `config/.credo.exs`. -/
theorem candidate_priority_and_strip_witness :
    getCredoConfigFilePath ⟨["/proj/config/.credo.exs"], some ["proj"]⟩
      ⟨"", "", [], [], false, false, ""⟩ (some ⟨["proj"], "f.ex"⟩) =
      some (some "config/.credo.exs") := by
  have h := candidate_priority_and_strip ⟨["/proj/config/.credo.exs"], some ["proj"]⟩
    ⟨"", "", [], [], false, false, ""⟩ ⟨["proj"], "f.ex"⟩ "/proj"
    (by decide) (by decide) (by decide) (Or.inr (by decide))
  rw [h]
  decide

/-! ## Claim theorems: `getCommandArguments` -/

/-- C5: a non-empty include-tags list appends one `--checks-with-tag <tag>`
pair per tag and suppresses the exclude-tag flags entirely: the argument
list is independent of the exclude-tags list's contents. -/
theorem include_tags_override (env : Env) (c : CredoConfig) (du : Option Uri)
    (cfp : Option String)
    (h : c.checksWithTag ≠ [])
    (hterm : getCredoConfigFilePath env c du = some cfp) :
    getCommandArguments env c du =
      some (commandFront c ++ (DefaultCommandArguments ++ configFileArgs cfp ++
        configNameArgs c ++
        c.checksWithTag.flatMap (fun tag => ["--checks-with-tag", tag]) ++
        strictArgs c ++ diffArgs c)) ∧
    ∀ ex, getCommandArguments env { c with checksWithoutTag := ex } du =
      getCommandArguments env c du := by
  have hlen : c.checksWithTag.length ≠ 0 := by simp [h]
  have htag : tagArgs c =
      c.checksWithTag.flatMap (fun tag => ["--checks-with-tag", tag]) := by
    unfold tagArgs
    rw [if_pos hlen]
  constructor
  · unfold getCommandArguments
    rw [hterm, htag]
  · intro ex
    have hterm' : getCredoConfigFilePath env { c with checksWithoutTag := ex } du =
        some cfp := hterm
    have htag' : tagArgs { c with checksWithoutTag := ex } =
        c.checksWithTag.flatMap (fun tag => ["--checks-with-tag", tag]) := by
      unfold tagArgs
      rw [if_pos hlen]
    unfold getCommandArguments
    rw [hterm, hterm', htag, htag']
    rfl

/-- Witness for C5: include-tags `["a", "b"]` with exclude-tags `["c"]` emit
only the two include pairs, and emptying the exclude list changes nothing. -/
theorem include_tags_override_witness :
    getCommandArguments ⟨[], none⟩ ⟨"", "", ["a", "b"], ["c"], false, false, ""⟩ none =
      some ["credo", "--format", "json", "--read-from-stdin",
        "--checks-with-tag", "a", "--checks-with-tag", "b"] ∧
    getCommandArguments ⟨[], none⟩ ⟨"", "", ["a", "b"], [], false, false, ""⟩ none =
      getCommandArguments ⟨[], none⟩ ⟨"", "", ["a", "b"], ["c"], false, false, ""⟩ none := by
  have h := include_tags_override ⟨[], none⟩ ⟨"", "", ["a", "b"], ["c"], false, false, ""⟩
    none none (by decide) (by decide)
  constructor
  · rw [h.1]
    decide
  · exact h.2 []

/-- C6: with diff mode enabled the argument list starts with the diff
subcommand form `credo diff`, placed before the fixed baseline flags, and
ends with `--from-git-merge-base` followed by the configured merge base
(the literal `main` when none is configured); with diff mode disabled it
starts with `credo` alone and the diff contribution is empty. -/
theorem diff_mode_structure (env : Env) (c : CredoConfig) (du : Option Uri)
    (args : List String)
    (hterm : getCommandArguments env c du = some args) :
    (c.diffModeEnabled = true →
      ∃ mid, args = [DefaultCommand, DiffCommand] ++ DefaultCommandArguments ++ mid ++
        ["--from-git-merge-base", effectiveMergeBase c]) ∧
    (c.diffModeEnabled = false →
      (∃ mid, args = [DefaultCommand] ++ DefaultCommandArguments ++ mid) ∧
      diffArgs c = []) := by
  unfold getCommandArguments at hterm
  cases hcfg : getCredoConfigFilePath env c du with
  | none => rw [hcfg] at hterm; cases hterm
  | some cfp =>
    rw [hcfg] at hterm
    injection hterm with hargs
    constructor
    · intro hd
      refine ⟨configFileArgs cfp ++ configNameArgs c ++ tagArgs c ++ strictArgs c, ?_⟩
      rw [← hargs]
      simp [commandFront, diffArgs, hd, List.append_assoc]
    · intro hd
      refine ⟨⟨configFileArgs cfp ++ configNameArgs c ++ tagArgs c ++ strictArgs c, ?_⟩, ?_⟩
      · rw [← hargs]
        simp [commandFront, diffArgs, hd, List.append_assoc]
      · simp [diffArgs, hd]

/-- Witness for C6: diff mode enabled with no configured merge base yields
`credo diff … --from-git-merge-base main`. -/
theorem diff_mode_structure_witness :
    ∃ mid, ["credo", "diff", "--format", "json", "--read-from-stdin",
      "--from-git-merge-base", "main"] =
      [DefaultCommand, DiffCommand] ++ DefaultCommandArguments ++ mid ++
        ["--from-git-merge-base", effectiveMergeBase ⟨"", "", [], [], false, true, ""⟩] :=
  (diff_mode_structure ⟨[], none⟩ ⟨"", "", [], [], false, true, ""⟩ none
    ["credo", "diff", "--format", "json", "--read-from-stdin",
      "--from-git-merge-base", "main"] (by decide)).1 rfl

/-- C7 counterexample: with strict and diff modes disabled but an include tag
configured, the emitted list also contains the tag-filter flags, so it is
not exactly the base tokens plus config-file/config-name pairs (none of
which are present here). -/
theorem base_invocation_exact_counterexample :
    getCommandArguments ⟨[], none⟩ ⟨"", "", ["a"], [], false, false, ""⟩ none =
      some ["credo", "--format", "json", "--read-from-stdin", "--checks-with-tag", "a"] ∧
    getCommandArguments ⟨[], none⟩ ⟨"", "", ["a"], [], false, false, ""⟩ none ≠
      some ["credo", "--format", "json", "--read-from-stdin"] := by
  decide

/-- C7 (amended): with strict mode disabled, diff mode disabled, and both tag
lists empty, the argument list is exactly the tool name, the fixed baseline
flags `--format json --read-from-stdin`, and any config-file and
config-name pairs — no strict and no diff flags. -/
theorem base_invocation_exact (env : Env) (c : CredoConfig) (du : Option Uri)
    (cfp : Option String)
    (hstrict : c.strictMode = false) (hdiff : c.diffModeEnabled = false)
    (hwith : c.checksWithTag = []) (hwithout : c.checksWithoutTag = [])
    (hterm : getCredoConfigFilePath env c du = some cfp) :
    getCommandArguments env c du =
      some ([DefaultCommand] ++ DefaultCommandArguments ++ configFileArgs cfp ++
        configNameArgs c) := by
  unfold getCommandArguments
  rw [hterm]
  simp [commandFront, tagArgs, strictArgs, diffArgs, hstrict, hdiff, hwith, hwithout,
    List.append_assoc]

/-- Witness for amended C7: a resolved config file and a named configuration,
nothing else. -/
theorem base_invocation_exact_witness :
    getCommandArguments ⟨["/proj/.credo.exs"], some ["proj"]⟩
      ⟨"", "my-config", [], [], false, false, ""⟩ (some ⟨["proj"], "f.ex"⟩) =
      some ["credo", "--format", "json", "--read-from-stdin",
        "--config-file", ".credo.exs", "--config-name", "my-config"] := by
  have h := base_invocation_exact ⟨["/proj/.credo.exs"], some ["proj"]⟩
    ⟨"", "my-config", [], [], false, false, ""⟩ (some ⟨["proj"], "f.ex"⟩)
    (some ".credo.exs") rfl rfl rfl rfl (by decide)
  rw [h]
  decide

/-- C8: the specified logic signals absence instead of raising: a search that
reaches the stop boundary without a hit returns the source's `undefined`; a
resolution with no existing candidate returns the source's `null`; and the
builder then simply proceeds without a `--config-file` pair. -/
theorem absence_not_error (fs : FS) (name : String) (s start : List String)
    (env : Env) (c : CredoConfig) (uri : Uri) (du : Option Uri) (pf : String) :
    (s <+: start →
      (∀ d, s <+: d → d <+: start →
        existsSync fs (joinRel (pathString d) name) = false) →
      findUp fs name start (some s) = some none) ∧
    ((isAbsolute (effectiveConfigFile c) &&
        existsSync env.fs (effectiveConfigFile c)) = false →
      getProjectFolder env uri = some pf →
      existsSync env.fs (joinRel pf (effectiveConfigFile c)) = false →
      existsSync env.fs (joinRel (joinRel pf "config") (effectiveConfigFile c)) = false →
      getCredoConfigFilePath env c (some uri) = some none) ∧
    (getCredoConfigFilePath env c du = some none →
      getCommandArguments env c du =
        some (commandFront c ++ (DefaultCommandArguments ++ configNameArgs c ++
          tagArgs c ++ strictArgs c ++ diffArgs c))) := by
  refine ⟨fun hpre hmiss => ?_, fun habs hpf e1 e2 => ?_, fun hnull => ?_⟩
  · exact findUpAux_miss (start.length + 1) start hpre (by omega) hmiss
  · unfold getCredoConfigFilePath
    simp [habs, hpf, e1, e2]
  · unfold getCommandArguments
    rw [hnull]
    simp [configFileArgs]

/-- Witness for C8: an empty filesystem — the bounded search, the resolver
and the builder all signal absence and proceed. -/
theorem absence_not_error_witness :
    (findUp ([] : FS) "x" ["a"] (some []) = some none) ∧
    (getCredoConfigFilePath ⟨[], none⟩ ⟨"", "", [], [], false, false, ""⟩
      (some ⟨["a"], "f.ex"⟩) = some none) ∧
    (getCommandArguments ⟨[], none⟩ ⟨"", "", [], [], false, false, ""⟩ none =
      some ["credo", "--format", "json", "--read-from-stdin"]) := by
  have h := absence_not_error [] "x" [] ["a"] ⟨[], none⟩
    ⟨"", "", [], [], false, false, ""⟩ ⟨["a"], "f.ex"⟩ none (pathString ["a"])
  refine ⟨h.1 ⟨["a"], rfl⟩ (fun d _ _ => rfl),
    h.2.1 (by decide) (by decide) (by decide) (by decide), ?_⟩
  have h3 := h.2.2 (by decide)
  rw [h3]
  decide

/-! ## Claim theorems: `getCommandEnvironment` -/

/-- C9 counterexample: the configured override lands after the ambient `PATH`
value, not before it, so it is appended rather than prepended as the claim
states. -/
theorem environment_prepend_counterexample :
    getCommandEnvironment (fun k => if k = "PATH" then some "/usr/bin" else none)
      ":" "/custom" "PATH" = some ("/usr/bin" ++ ":" ++ "/custom") ∧
    getCommandEnvironment (fun k => if k = "PATH" then some "/usr/bin" else none)
      ":" "/custom" "PATH" ≠ some ("/custom" ++ ":" ++ "/usr/bin") := by
  decide

/-- C9 (amended): the returned map is a copy of the ambient environment in
which, when an override is configured, the override is appended to the
`PATH` variable after the platform delimiter; every other variable is
unchanged, and with no override the ambient map is returned unmodified. -/
theorem environment_appends_override (processEnv : String → Option String)
    (delimiter executePath : String) :
    (executePath ≠ "" →
      getCommandEnvironment processEnv delimiter executePath "PATH" =
        some (templateStr (processEnv "PATH") ++ delimiter ++ executePath) ∧
      ∀ v, v ≠ "PATH" →
        getCommandEnvironment processEnv delimiter executePath v = processEnv v) ∧
    (executePath = "" →
      getCommandEnvironment processEnv delimiter executePath = processEnv) := by
  constructor
  · intro h
    constructor
    · unfold getCommandEnvironment
      simp [h]
    · intro v hv
      unfold getCommandEnvironment
      simp [h, hv]
  · intro h
    unfold getCommandEnvironment
    rw [if_pos h]

/-- Witness for amended C9: `PATH` gains the override at the end, `HOME`
stays untouched. -/
theorem environment_appends_override_witness :
    getCommandEnvironment (fun k => if k = "PATH" then some "/usr/bin" else none)
      ":" "/opt/bin" "PATH" = some ("/usr/bin" ++ ":" ++ "/opt/bin") ∧
    getCommandEnvironment (fun k => if k = "PATH" then some "/usr/bin" else none)
      ":" "/opt/bin" "HOME" = none := by
  have h := environment_appends_override
    (fun k => if k = "PATH" then some "/usr/bin" else none) ":" "/opt/bin"
  obtain ⟨h1, h2⟩ := h.1 (by decide)
  constructor
  · rw [h1]
    decide
  · rw [h2 "HOME" (by decide)]
    decide
